import Mathlib

/-!
Verification of the KSockets framed-socket library against its
natural-language specification.

The development shallowly embeds the Python sources under `src/KSockets/`
(`socket_api.py`, `packers.py`, `simplesocket.py`, `constants.py`,
`version.py`).  Streams are lists of byte values (`Nat` below 256 in all
uses), Python exceptions are made explicit with `Except`, and the loops of
the source become structural recursions over explicit fuel so that every
definition evaluates inside the kernel.
-/

namespace KSockets

/-- Python exceptions that escape or are caught in the modelled code. -/
inductive PyErr where
  | typeError
  | attributeError
  | valueError
deriving DecidableEq, Repr

/-! ### Decimal digits, as `str(n)` / `json.dumps` render naturals -/

/-- Decimal digits of `n`, least significant first; the first argument is
fuel (`n` itself suffices because `n / 10 ≤ n`). -/
def digitsLEAux : Nat → Nat → List Nat
  | 0, _ => []
  | _ + 1, 0 => []
  | fuel + 1, n + 1 => ((n + 1) % 10) :: digitsLEAux fuel ((n + 1) / 10)

/-- Decimal digits of `n`, least significant first (empty for 0). -/
def digitsLE (n : Nat) : List Nat := digitsLEAux n n

/-- ASCII byte rendering of `n` in decimal, exactly as Python `str(n)`
prints a non-negative integer. -/
def natStrBytes (n : Nat) : List Nat :=
  if n = 0 then [48] else (digitsLE n).reverse.map (fun d => 48 + d)

/-- Value of a little-endian digit list. -/
def valLE : List Nat → Nat
  | [] => 0
  | d :: ds => d + 10 * valLE ds

/-- ASCII codes 48–57 are the decimal digits. -/
def isDigitByte (b : Nat) : Bool := 48 ≤ b && b ≤ 57

/-- Numeric value of a big-endian list of ASCII digit bytes. -/
def digitsVal (ds : List Nat) : Nat := ds.foldl (fun acc d => acc * 10 + (d - 48)) 0

theorem digitsLEAux_val (fuel : Nat) : ∀ n : Nat, n ≤ fuel → valLE (digitsLEAux fuel n) = n := by
  induction fuel with
  | zero => intro n hn; interval_cases n; simp [digitsLEAux, valLE]
  | succ f ih =>
    intro n hn
    match n with
    | 0 => simp [digitsLEAux, valLE]
    | m + 1 =>
      have hdiv : (m + 1) / 10 ≤ f := by
        have h1 : (m + 1) / 10 < m + 1 := Nat.div_lt_self (Nat.succ_pos m) (by norm_num)
        omega
      simp only [digitsLEAux, valLE, ih _ hdiv]
      omega

theorem valLE_digitsLE (n : Nat) : valLE (digitsLE n) = n :=
  digitsLEAux_val n n (Nat.le_refl n)

theorem digitsLEAux_lt_ten (fuel : Nat) :
    ∀ n : Nat, ∀ d ∈ digitsLEAux fuel n, d < 10 := by
  induction fuel with
  | zero => intro n d hd; simp [digitsLEAux] at hd
  | succ f ih =>
    intro n d hd
    match n with
    | 0 => simp [digitsLEAux] at hd
    | m + 1 =>
      simp only [digitsLEAux, List.mem_cons] at hd
      rcases hd with h | h
      · subst h; exact Nat.mod_lt _ (by norm_num)
      · exact ih _ _ h

theorem digitsLE_lt_ten (n : Nat) : ∀ d ∈ digitsLE n, d < 10 :=
  digitsLEAux_lt_ten n n

/-- Every byte of `natStrBytes n` is an ASCII digit. -/
theorem natStrBytes_digits (n : Nat) : ∀ b ∈ natStrBytes n, isDigitByte b = true := by
  intro b hb
  unfold natStrBytes at hb
  split at hb
  · simp at hb; subst hb; decide
  · simp only [List.mem_map, List.mem_reverse] at hb
    obtain ⟨d, hd, rfl⟩ := hb
    have := digitsLE_lt_ten n d hd
    simp [isDigitByte]; omega

/-- Big-endian parse of the printed digits recovers the number. -/
theorem digitsVal_natStrBytes (n : Nat) : digitsVal (natStrBytes n) = n := by
  unfold natStrBytes
  split
  · subst n; decide
  · have hfold : ∀ (l : List Nat) (acc : Nat),
        (l.map (fun d => 48 + d)).reverse.foldl (fun acc d => acc * 10 + (d - 48)) acc =
          acc * 10 ^ l.length + valLE l := by
      intro l
      induction l with
      | nil => intro acc; simp [valLE]
      | cons d ds ih =>
        intro acc
        simp only [List.map_cons, List.reverse_cons, List.foldl_append, ih, valLE,
          List.foldl_cons, List.foldl_nil, List.length_cons]
        have : 48 + d - 48 = d := by omega
        rw [this]
        ring
    have := hfold (digitsLE n) 0
    simpa [digitsVal, valLE_digitsLE] using this

/-- `natStrBytes` is never empty. -/
theorem natStrBytes_ne_nil (n : Nat) : natStrBytes n ≠ [] := by
  unfold natStrBytes
  split
  · simp
  · next h =>
    intro hcontra
    simp only [List.map_eq_nil_iff, List.reverse_eq_nil_iff] at hcontra
    have := valLE_digitsLE n
    rw [hcontra] at this
    simp [valLE] at this
    omega

/-- Digit count of `natStrBytes n` grows with at most the power of ten. -/
theorem digitsLEAux_length_le (fuel : Nat) :
    ∀ n k : Nat, n ≤ fuel → n < 10 ^ k → (digitsLEAux fuel n).length ≤ k := by
  induction fuel with
  | zero => intro n k hn _; interval_cases n; simp [digitsLEAux]
  | succ f ih =>
    intro n k hn hk
    match n with
    | 0 => simp [digitsLEAux]
    | m + 1 =>
      match k with
      | 0 => simp at hk
      | j + 1 =>
        have hdiv : (m + 1) / 10 ≤ f := by
          have h1 : (m + 1) / 10 < m + 1 := Nat.div_lt_self (Nat.succ_pos m) (by norm_num)
          omega
        have hdivk : (m + 1) / 10 < 10 ^ j := by
          rw [Nat.div_lt_iff_lt_mul (by norm_num : 0 < 10)]
          have : (10 : Nat) ^ (j + 1) = 10 ^ j * 10 := by ring
          omega
        simp only [digitsLEAux, List.length_cons]
        exact Nat.succ_le_succ (ih _ j hdiv hdivk)

theorem natStrBytes_length_le (n k : Nat) (hk : 1 ≤ k) (h : n < 10 ^ k) :
    (natStrBytes n).length ≤ k := by
  unfold natStrBytes
  split
  · simpa using hk
  · simp only [List.length_map, List.length_reverse]
    exact digitsLEAux_length_le n n k (Nat.le_refl n) h

/-! ### Constants (`constants.py`) -/

/-- `Constants.HEADER_CHUNKS`: width of the fixed message header. -/
def HEADER_CHUNKS : Nat := 128

/-- `Constants.INIT_BUF`: width of the fixed handshake header. -/
def INIT_BUF : Nat := 1024

def ACKNOWLEDGE : String := "HelloAck"
def ASKID : String := "ASK ID"
def OLD_ASKID : String := "ms_SimpleSocketAskID_version"
def PING_CODE : String := "KSCKT PING"
def DISCONNECT : String := "KSCKT DISCONNECT"
def OLD_PING_CODE : String := "ms_SimpleSocketPing_version"
def OLD_DISCONNECT : String := "ms_SimpleSocketDisconnect_version"

/-- `CMD.REQ_RECCON`. -/
def REQ_RECCON : String := "REQ RECONN"
/-- `CMD.REPL_RECCON_OK`. -/
def REPL_RECCON_OK : String := "RECONN OK"
/-- `CMD.REPL_RECCON_DE`. -/
def REPL_RECCON_DE : String := "RECONN DE"
/-- `CMD.REPL_CHNK_OK`. -/
def REPL_CHNK_OK : String := "STCHNK OK"

/-! ### Framer (`socket_api.py`, class SocketAPI)

A stream is modelled as the finite list of bytes the peer will deliver
before EOF.  `socket.recv` on such a stream yields a prefix; closing the
connection corresponds to the list running out.
-/

/-- `SocketAPI._recvall(client, byte_target)`: read exactly `n` bytes from
the stream; if the peer closes first (`recv` returns `b''`), the partial
data is discarded and `b''` (here `none`) is returned.  The second
component is the rest of the stream. -/
def recvall (n : Nat) (s : List Nat) : Option (List Nat) × List Nat :=
  if n ≤ s.length then (some (s.take n), s.drop n) else (none, [])

/-- One JSON header, byte for byte as
`json.dumps({'a': A, 'r': R})` renders it:
`\x7b"a": A, "r": R\x7d` (ASCII codes written out). -/
def headerJsonBytes (a r : Nat) : List Nat :=
  [123, 34, 97, 34, 58, 32] ++ natStrBytes a ++
    [44, 32, 34, 114, 34, 58, 32] ++ natStrBytes r ++ [125]

/-- `packers.formatify(message, padding)`: serialise and left-justify with
ASCII spaces to the padding width (no truncation if already longer). -/
def formatify (bs : List Nat) (padding : Nat) : List Nat :=
  bs ++ List.replicate (padding - bs.length) 32

/-- Match a literal byte prefix and return the remainder. -/
def expectBytes (pre bs : List Nat) : Option (List Nat) :=
  if bs.take pre.length = pre then some (bs.drop pre.length) else none

/-- `packers.decodify(header, padding)` followed by the `header['a']` /
`header['r']` lookups of `receive_all`: decode the header bytes, truncate
at the first closing brace and JSON-parse.  `json.loads` is modelled on
the exact grammar `formatify`/`json.dumps` emit for the two-key header
(this is the full set of headers the library itself produces);
any other byte string is a parse/`KeyError` failure (`none`). -/
def parseHeaderBytes (bs : List Nat) : Option (Nat × Nat) :=
  match expectBytes [123, 34, 97, 34, 58, 32] bs with
  | none => none
  | some r1 =>
    let ds1 := r1.takeWhile isDigitByte
    let r2 := r1.dropWhile isDigitByte
    if ds1.isEmpty then none else
    match expectBytes [44, 32, 34, 114, 34, 58, 32] r2 with
    | none => none
    | some r3 =>
      let ds2 := r3.takeWhile isDigitByte
      let r4 := r3.dropWhile isDigitByte
      if ds2.isEmpty then none else
      match r4 with
      | 125 :: _ => some (digitsVal ds1, digitsVal ds2)
      | _ => none

/-- Optional compression codec (`CompressionManager`): zstd is an external
library, modelled by its compress/decompress functions. -/
structure Codec where
  compress : List Nat → List Nat
  decompress : List Nat → List Nat

/-- `SocketAPI.compress_bytes`: identity when no codec was negotiated. -/
def compressBytes : Option Codec → List Nat → List Nat
  | none, d => d
  | some c, d => c.compress d

/-- `SocketAPI.decompress_bytes`. -/
def decompressBytes : Option Codec → List Nat → List Nat
  | none, d => d
  | some c, d => c.decompress d

/-- `SocketAPI.send_all(data)`: compress, emit the padded header, then the
payload in consecutive writes of at most `chunk_size` bytes (their
concatenation is the payload itself); returns the wire bytes and the
post-compression length that the function returns. -/
def send_all (chunkSize : Nat) (codec : Option Codec) (payload : List Nat) :
    List Nat × Nat :=
  let data := compressBytes codec payload
  let r := if data.length > chunkSize then chunkSize else data.length
  (formatify (headerJsonBytes data.length r) HEADER_CHUNKS ++ data, data.length)

/-- The loop of `SocketAPI._receive_chunks`; `fuel` starts at the declared
total and strictly exceeds the steps the loop can take (each iteration
consumes `min chunk_size remaining ≥ 1` of `remaining`).  A falsy chunk —
`recv` hitting EOF, or a zero-byte read when `chunk_size = 0` — breaks the
loop and returns the data gathered so far. -/
def receiveChunksAux (chunkSize : Nat) : Nat → Nat → List Nat → List Nat → List Nat × List Nat
  | _, 0, s, acc => (acc, s)
  | 0, _ + 1, s, acc => (acc, s)
  | fuel + 1, remaining + 1, s, acc =>
    let k := min chunkSize (remaining + 1)
    if k = 0 then (acc, s)
    else
      match recvall k s with
      | (none, s') => (acc, s')
      | (some chunk, s') => receiveChunksAux chunkSize fuel (remaining + 1 - k) s' (acc ++ chunk)

/-- `SocketAPI._receive_chunks(client, total_len)`. -/
def receiveChunks (chunkSize total : Nat) (s : List Nat) : List Nat × List Nat :=
  receiveChunksAux chunkSize total total s []

/-- Return value of `receive_all`: Python `False` for a missing header,
otherwise a byte string. -/
inductive RecvRes where
  | pyFalse
  | bytes (bs : List Nat)
deriving DecidableEq, Repr

/-- `SocketAPI.receive_all`: read the fixed-width header; EOF before a
header gives `False`; an undecodable header or missing key gives `b''`
(the `except` branch; `decodify`'s UnicodeDecodeError branch, returning a
falsy dict, is subsumed by the parse failure); `r` beyond the local chunk
size gives `b''` without touching the body; otherwise read `a` body bytes
in chunks and decompress. -/
def receive_all (chunkSize : Nat) (codec : Option Codec) (s : List Nat) :
    RecvRes × List Nat :=
  match recvall HEADER_CHUNKS s with
  | (none, s') => (.pyFalse, s')
  | (some headerData, s') =>
    match parseHeaderBytes headerData with
    | none => (.bytes [], s')
    | some (totalLen, chunked) =>
      if chunked > chunkSize then (.bytes [], s')
      else
        let pr := receiveChunks chunkSize totalLen s'
        (.bytes (decompressBytes codec pr.1), pr.2)

/-! ### Framer lemmas -/

theorem takeWhile_append_of_all {p : Nat → Bool} :
    ∀ (l₁ l₂ : List Nat), (∀ x ∈ l₁, p x = true) →
      (l₁ ++ l₂).takeWhile p = l₁ ++ l₂.takeWhile p := by
  intro l₁
  induction l₁ with
  | nil => intro l₂ _; simp
  | cons x xs ih =>
    intro l₂ h
    have hx : p x = true := h x (List.mem_cons_self x xs)
    simp only [List.cons_append, List.takeWhile_cons, hx, if_true]
    rw [ih l₂ (fun y hy => h y (List.mem_cons_of_mem x hy))]

theorem dropWhile_append_of_all {p : Nat → Bool} :
    ∀ (l₁ l₂ : List Nat), (∀ x ∈ l₁, p x = true) →
      (l₁ ++ l₂).dropWhile p = l₂.dropWhile p := by
  intro l₁
  induction l₁ with
  | nil => intro l₂ _; simp
  | cons x xs ih =>
    intro l₂ h
    have hx : p x = true := h x (List.mem_cons_self x xs)
    simp only [List.cons_append, List.dropWhile_cons, hx, if_true]
    exact ih l₂ (fun y hy => h y (List.mem_cons_of_mem x hy))

theorem expectBytes_append (pre rest : List Nat) :
    expectBytes pre (pre ++ rest) = some rest := by
  unfold expectBytes
  rw [List.take_left, List.drop_left]
  simp

/-- A nonempty list is not `isEmpty`. -/
theorem isEmpty_eq_false_of_ne_nil {l : List Nat} (h : l ≠ []) : l.isEmpty = false := by
  cases l with
  | nil => exact absurd rfl h
  | cons x xs => rfl

/-- The header printer/parser round trip: a canonical header followed by
anything (the padding spaces) parses back to its two fields. -/
theorem parseHeaderBytes_headerJsonBytes (a r : Nat) (tail : List Nat) :
    parseHeaderBytes (headerJsonBytes a r ++ tail) = some (a, r) := by
  have h44 : isDigitByte 44 = false := by decide
  have h125 : isDigitByte 125 = false := by decide
  have e1 : headerJsonBytes a r ++ tail =
      [123, 34, 97, 34, 58, 32] ++
        (natStrBytes a ++ ([44, 32, 34, 114, 34, 58, 32] ++ (natStrBytes r ++ (125 :: tail)))) := by
    simp [headerJsonBytes]
  have hA : (natStrBytes a ++
      ([44, 32, 34, 114, 34, 58, 32] ++ (natStrBytes r ++ (125 :: tail)))).takeWhile isDigitByte =
      natStrBytes a := by
    rw [takeWhile_append_of_all _ _ (natStrBytes_digits a)]
    simp [List.takeWhile_cons, h44]
  have hA' : (natStrBytes a ++
      ([44, 32, 34, 114, 34, 58, 32] ++ (natStrBytes r ++ (125 :: tail)))).dropWhile isDigitByte =
      [44, 32, 34, 114, 34, 58, 32] ++ (natStrBytes r ++ (125 :: tail)) := by
    rw [dropWhile_append_of_all _ _ (natStrBytes_digits a)]
    simp [List.dropWhile_cons, h44]
  have hB : (natStrBytes r ++ (125 :: tail)).takeWhile isDigitByte = natStrBytes r := by
    rw [takeWhile_append_of_all _ _ (natStrBytes_digits r)]
    simp [List.takeWhile_cons, h125]
  have hB' : (natStrBytes r ++ (125 :: tail)).dropWhile isDigitByte = 125 :: tail := by
    rw [dropWhile_append_of_all _ _ (natStrBytes_digits r)]
    simp [List.dropWhile_cons, h125]
  rw [e1]
  unfold parseHeaderBytes
  rw [expectBytes_append]
  simp only [hA, hA', isEmpty_eq_false_of_ne_nil (natStrBytes_ne_nil a), Bool.false_eq_true,
    if_false, expectBytes_append, hB, hB', isEmpty_eq_false_of_ne_nil (natStrBytes_ne_nil r),
    digitsVal_natStrBytes]

/-- When the stream holds at least `remaining` bytes and the chunk size is
positive, the `_receive_chunks` loop reads exactly `remaining` bytes. -/
theorem receiveChunksAux_complete (chunkSize : Nat) (hcs : 1 ≤ chunkSize) :
    ∀ fuel remaining : Nat, ∀ s acc : List Nat, remaining ≤ fuel → remaining ≤ s.length →
      receiveChunksAux chunkSize fuel remaining s acc =
        (acc ++ s.take remaining, s.drop remaining) := by
  intro fuel
  induction fuel with
  | zero =>
    intro remaining s acc hf _
    interval_cases remaining
    simp [receiveChunksAux]
  | succ f ih =>
    intro remaining s acc hf hs
    match remaining with
    | 0 => simp [receiveChunksAux]
    | m + 1 =>
      have hk1 : 1 ≤ min chunkSize (m + 1) := le_min hcs (Nat.succ_le_succ (Nat.zero_le m))
      have hkle : min chunkSize (m + 1) ≤ s.length :=
        le_trans (min_le_right _ _) hs
      simp only [receiveChunksAux]
      rw [if_neg (by omega)]
      unfold recvall
      rw [if_pos hkle]
      show receiveChunksAux chunkSize f (m + 1 - min chunkSize (m + 1))
          (s.drop (min chunkSize (m + 1))) (acc ++ s.take (min chunkSize (m + 1))) =
        (acc ++ s.take (m + 1), s.drop (m + 1))
      rw [ih (m + 1 - min chunkSize (m + 1)) (s.drop (min chunkSize (m + 1)))
        (acc ++ s.take (min chunkSize (m + 1))) (by omega)
        (by simp [List.length_drop]; omega)]
      have htake : s.take (m + 1) =
          s.take (min chunkSize (m + 1)) ++
            (s.drop (min chunkSize (m + 1))).take (m + 1 - min chunkSize (m + 1)) := by
        rw [← List.take_add]
        congr 1
        omega
      have hdrop : (s.drop (min chunkSize (m + 1))).drop (m + 1 - min chunkSize (m + 1)) =
          s.drop (m + 1) := by
        rw [List.drop_drop]
        congr 1
        omega
      rw [htake, hdrop, List.append_assoc]

/-- When the stream runs out before `remaining` bytes arrive, the loop
stops at the first failed read and returns whatever full chunks it
gathered — a prefix of the stream — with the stream exhausted. -/
theorem receiveChunksAux_eof (chunkSize : Nat) (hcs : 1 ≤ chunkSize) :
    ∀ fuel remaining : Nat, ∀ s acc : List Nat, remaining ≤ fuel → s.length < remaining →
      ∃ t, receiveChunksAux chunkSize fuel remaining s acc = (acc ++ t, []) ∧ t <+: s := by
  intro fuel
  induction fuel with
  | zero => intro remaining s acc hf hs; omega
  | succ f ih =>
    intro remaining s acc hf hs
    match remaining with
    | 0 => omega
    | m + 1 =>
      have hk1 : 1 ≤ min chunkSize (m + 1) := le_min hcs (Nat.succ_le_succ (Nat.zero_le m))
      simp only [receiveChunksAux]
      rw [if_neg (by omega)]
      by_cases hkle : min chunkSize (m + 1) ≤ s.length
      · unfold recvall
        rw [if_pos hkle]
        show ∃ t, receiveChunksAux chunkSize f (m + 1 - min chunkSize (m + 1))
            (s.drop (min chunkSize (m + 1))) (acc ++ s.take (min chunkSize (m + 1))) =
            (acc ++ t, []) ∧ t <+: s
        obtain ⟨t', ht', hpre⟩ := ih (m + 1 - min chunkSize (m + 1))
          (s.drop (min chunkSize (m + 1))) (acc ++ s.take (min chunkSize (m + 1)))
          (by omega) (by simp [List.length_drop]; omega)
        refine ⟨s.take (min chunkSize (m + 1)) ++ t', ?_, ?_⟩
        · rw [ht', List.append_assoc]
        · obtain ⟨u, hu⟩ := hpre
          exact ⟨u, by rw [List.append_assoc, hu, List.take_append_drop]⟩
      · unfold recvall
        rw [if_neg hkle]
        exact ⟨[], by simp, List.nil_prefix⟩

theorem receiveChunks_eof (chunkSize total : Nat) (s : List Nat)
    (hcs : 1 ≤ chunkSize) (h : s.length < total) :
    ∃ t, receiveChunks chunkSize total s = (t, []) ∧ t <+: s := by
  obtain ⟨t, ht, hpre⟩ := receiveChunksAux_eof chunkSize hcs total total s [] (Nat.le_refl _) h
  exact ⟨t, by simpa [receiveChunks] using ht, hpre⟩

theorem formatify_length_of_le {bs : List Nat} {padding : Nat} (h : bs.length ≤ padding) :
    (formatify bs padding).length = padding := by
  simp [formatify]
  omega

theorem headerJsonBytes_length (a r : Nat) :
    (headerJsonBytes a r).length =
      14 + (natStrBytes a).length + (natStrBytes r).length := by
  simp [headerJsonBytes]
  omega

/-- Splitting the wire at the 128-byte header boundary. -/
theorem receive_all_header_step (chunkSize : Nat) (codec : Option Codec)
    (a r : Nat) (rest : List Nat)
    (hfit : (natStrBytes a).length + (natStrBytes r).length ≤ 113) :
    receive_all chunkSize codec (formatify (headerJsonBytes a r) HEADER_CHUNKS ++ rest) =
      (if r > chunkSize then (RecvRes.bytes [], rest)
       else
         let pr := receiveChunks chunkSize a rest
         (RecvRes.bytes (decompressBytes codec pr.1), pr.2)) := by
  have hhdr : (headerJsonBytes a r).length ≤ HEADER_CHUNKS := by
    rw [headerJsonBytes_length]
    unfold HEADER_CHUNKS
    omega
  have hflen : (formatify (headerJsonBytes a r) HEADER_CHUNKS).length = HEADER_CHUNKS :=
    formatify_length_of_le hhdr
  unfold receive_all recvall
  rw [if_pos (by rw [List.length_append, hflen]; omega)]
  rw [List.take_left' hflen, List.drop_left' hflen]
  show (match parseHeaderBytes (formatify (headerJsonBytes a r) HEADER_CHUNKS) with
    | none => (RecvRes.bytes [], rest)
    | some (totalLen, chunked) =>
      if chunked > chunkSize then (RecvRes.bytes [], rest)
      else
        let pr := receiveChunks chunkSize totalLen rest
        (RecvRes.bytes (decompressBytes codec pr.1), pr.2)) = _
  rw [show formatify (headerJsonBytes a r) HEADER_CHUNKS =
      headerJsonBytes a r ++ List.replicate (HEADER_CHUNKS - (headerJsonBytes a r).length) 32
      from rfl]
  rw [parseHeaderBytes_headerJsonBytes]

/-- C6: for every payload with `0 ≤ len(p) ≤ 2·chunk_size`, every
`chunk_size ∈ \x7b64, 128, 1024, 65536\x7d`, and matching optional codec on
both sides (decompress inverting compress, as zstd does; the compressed
size bounded so its decimal rendering fits the 128-byte header),
`receive_all` applied to the byte stream produced by `send_all p` returns
exactly `p` and consumes the whole stream. -/
theorem framing_round_trip (chunkSize : Nat) (codec : Option Codec) (p : List Nat)
    (hcs : chunkSize = 64 ∨ chunkSize = 128 ∨ chunkSize = 1024 ∨ chunkSize = 65536)
    (hlen : p.length ≤ 2 * chunkSize)
    (hcodec : ∀ d, decompressBytes codec (compressBytes codec d) = d)
    (hsize : (compressBytes codec p).length < 10 ^ 100) :
    receive_all chunkSize codec (send_all chunkSize codec p).1 = (.bytes p, []) := by
  have hchunk_le : chunkSize ≤ 65536 := by rcases hcs with h | h | h | h <;> omega
  have hchunk_pos : 1 ≤ chunkSize := by rcases hcs with h | h | h | h <;> omega
  unfold send_all
  set data := compressBytes codec p with hdata
  set rv := if data.length > chunkSize then chunkSize else data.length with hrv
  have hrle : rv ≤ chunkSize := by
    rw [hrv]; split <;> omega
  have hfit : (natStrBytes data.length).length + (natStrBytes rv).length ≤ 113 := by
    have h1 : (natStrBytes data.length).length ≤ 100 :=
      natStrBytes_length_le _ 100 (by norm_num) hsize
    have h2 : (natStrBytes rv).length ≤ 5 := by
      refine natStrBytes_length_le _ 5 (by norm_num) ?_
      have : rv ≤ 65536 := le_trans hrle hchunk_le
      norm_num
      omega
    omega
  rw [receive_all_header_step chunkSize codec data.length rv data hfit]
  rw [if_neg (by omega)]
  have hchunks : receiveChunks chunkSize data.length data = (data, []) := by
    have := receiveChunksAux_complete chunkSize hchunk_pos data.length data.length data []
      (Nat.le_refl _) (Nat.le_refl _)
    simpa [receiveChunks, List.take_length, List.drop_length] using this
  simp only [hchunks]
  rw [hcodec p]

/-- Witness for C6 at chunk size 64, no codec, payload `[1, 2, 3]`. -/
theorem framing_round_trip_witness :
    receive_all 64 none (send_all 64 none [1, 2, 3]).1 = (.bytes [1, 2, 3], []) :=
  framing_round_trip 64 none [1, 2, 3] (Or.inl rfl) (by norm_num) (fun d => rfl)
    (by norm_num [compressBytes])

/-- C8: a header that parses but declares `r` above the receiver's chunk
size makes `receive_all` return the empty byte string, leaving every byte
after the 128-byte header unconsumed (`receive_all` contains no call that
closes the stream, so the stream also stays open). -/
theorem chunk_enforcement (chunkSize a r : Nat) (codec : Option Codec) (rest : List Nat)
    (hr : r > chunkSize)
    (hfit : (natStrBytes a).length + (natStrBytes r).length ≤ 113) :
    receive_all chunkSize codec (formatify (headerJsonBytes a r) HEADER_CHUNKS ++ rest) =
      (.bytes [], rest) := by
  rw [receive_all_header_step chunkSize codec a r rest hfit]
  rw [if_pos hr]

/-- Witness for C8: fabricated header `a = 5, r = 100` against chunk size
64; the two advertised body bytes are still on the stream afterwards. -/
theorem chunk_enforcement_witness :
    receive_all 64 none (formatify (headerJsonBytes 5 100) HEADER_CHUNKS ++ [9, 9]) =
      (.bytes [], [9, 9]) :=
  chunk_enforcement 64 5 100 none [9, 9] (by norm_num) (by decide)

set_option maxRecDepth 40000 in
/-- C4 counterexample: a frame declaring an 8-byte body whose stream ends
after 4 bytes makes `receive_all` (chunk size 4, no codec) return those 4
bytes — a proper nonempty prefix of the declared body, not an
empty-payload or EOF sentinel. -/
theorem receive_all_eof_returns_proper_prefix :
    receive_all 4 none (formatify (headerJsonBytes 8 4) HEADER_CHUNKS ++ [1, 2, 3, 4]) =
        (.bytes [1, 2, 3, 4], []) ∧
      ([1, 2, 3, 4] : List Nat) ≠ [] ∧ ([1, 2, 3, 4] : List Nat).length < 8 := by
  refine ⟨by decide, by decide, by decide⟩

/-- C4 as amended: when EOF arrives before the declared `a` body bytes,
`receive_all` (no codec) returns the bytes it managed to read — a prefix
of the available body, possibly proper and nonempty — with the stream
exhausted; it does not fabricate data beyond the prefix. -/
theorem receive_all_eof_prefix (chunkSize a r : Nat) (body : List Nat)
    (hcs : 1 ≤ chunkSize) (hr : r ≤ chunkSize)
    (hfit : (natStrBytes a).length + (natStrBytes r).length ≤ 113)
    (heof : body.length < a) :
    ∃ t, receive_all chunkSize none
        (formatify (headerJsonBytes a r) HEADER_CHUNKS ++ body) = (.bytes t, []) ∧
      t <+: body := by
  rw [receive_all_header_step chunkSize none a r body hfit]
  rw [if_neg (by omega)]
  obtain ⟨t, ht, hpre⟩ := receiveChunks_eof chunkSize a body hcs heof
  exact ⟨t, by simp [ht, decompressBytes], hpre⟩

/-- Witness for the amended C4 statement at the concrete truncated frame. -/
theorem receive_all_eof_prefix_witness :
    ∃ t, receive_all 4 none
        (formatify (headerJsonBytes 8 4) HEADER_CHUNKS ++ [1, 2, 3, 4]) = (.bytes t, []) ∧
      t <+: [1, 2, 3, 4] :=
  receive_all_eof_prefix 4 8 4 [1, 2, 3, 4] (by norm_num) (by norm_num) (by decide)
    (by norm_num)

/-! ### JSON values and the Python data model (`packers.py`)

Payload handling works on JSON-decoded Python values.  `JVal` is the JSON
tree; `PyVal` is the Python value a payload can take (`JVal` images plus
`bytes`).  `json.dumps` is modelled byte-exactly on this tree with the
default separators; `json.loads` is modelled on the grammar `json.dumps`
emits (objects, arrays, strings with the standard short escapes, integers,
booleans, null, optional blanks) — the set of texts the library itself
produces; other texts count as parse failures. -/

inductive JVal where
  | jnull
  | jbool (b : Bool)
  | jint (n : Int)
  | jstr (s : String)
  | jarr (elems : List JVal)
  | jobj (fields : List (String × JVal))

inductive PyVal where
  | vnone
  | vbool (b : Bool)
  | vint (n : Int)
  | vstr (s : String)
  | vbytes (bs : List Nat)
  | vlist (xs : List PyVal)
  | vdict (kv : List (String × PyVal))

/-- JSON string escaping as `json.dumps` performs it for the characters the
modelled values contain (quote, backslash and the short control escapes). -/
def escChar (c : Char) : List Char :=
  if c = '"' then ['\\', '"']
  else if c = '\\' then ['\\', '\\']
  else if c = '\n' then ['\\', 'n']
  else if c = '\t' then ['\\', 't']
  else if c = '\r' then ['\\', 'r']
  else [c]

def escapeChars : List Char → List Char
  | [] => []
  | c :: cs => escChar c ++ escapeChars cs

def quoteString (s : String) : String :=
  "\"" ++ String.mk (escapeChars s.data) ++ "\""

mutual
/-- `json.dumps` with its default separators. -/
def jsonDumps : JVal → String
  | .jnull => "null"
  | .jbool true => "true"
  | .jbool false => "false"
  | .jint n => toString n
  | .jstr s => quoteString s
  | .jarr es => "[" ++ String.intercalate ", " (jsonDumpsList es) ++ "]"
  | .jobj kvs => "\x7b" ++ String.intercalate ", " (jsonDumpsFields kvs) ++ "\x7d"
def jsonDumpsList : List JVal → List String
  | [] => []
  | v :: vs => jsonDumps v :: jsonDumpsList vs
def jsonDumpsFields : List (String × JVal) → List String
  | [] => []
  | (k, v) :: kvs => (quoteString k ++ ": " ++ jsonDumps v) :: jsonDumpsFields kvs
end

def skipSpaces : List Char → List Char
  | ' ' :: r => skipSpaces r
  | r => r

/-- Body of a JSON string after the opening quote, undoing `escChar`. -/
def parseStrChars : List Char → Option (List Char × List Char)
  | [] => none
  | '"' :: r => some ([], r)
  | '\\' :: e :: r =>
    let esc : Option Char :=
      if e = '"' then some '"'
      else if e = '\\' then some '\\'
      else if e = 'n' then some '\n'
      else if e = 't' then some '\t'
      else if e = 'r' then some '\r'
      else none
    match esc with
    | none => none
    | some c => (parseStrChars r).map (fun p => (c :: p.1, p.2))
  | c :: r => (parseStrChars r).map (fun p => (c :: p.1, p.2))

def charDigitsVal (ds : List Char) : Nat := ds.foldl (fun acc d => acc * 10 + (d.toNat - 48)) 0

mutual
/-- One JSON value; fuel bounds the nesting depth. -/
def parseJ : Nat → List Char → Option (JVal × List Char)
  | 0, _ => none
  | fuel + 1, cs =>
    match skipSpaces cs with
    | 'n' :: 'u' :: 'l' :: 'l' :: r => some (.jnull, r)
    | 't' :: 'r' :: 'u' :: 'e' :: r => some (.jbool true, r)
    | 'f' :: 'a' :: 'l' :: 's' :: 'e' :: r => some (.jbool false, r)
    | '"' :: r => (parseStrChars r).map (fun p => (.jstr (String.mk p.1), p.2))
    | '[' :: r =>
      (match skipSpaces r with
       | ']' :: r' => some (.jarr [], r')
       | r' => (parseJList fuel r').map (fun p => (.jarr p.1, p.2)))
    | '\x7b' :: r =>
      (match skipSpaces r with
       | '\x7d' :: r' => some (.jobj [], r')
       | r' => (parseJFields fuel r').map (fun p => (.jobj p.1, p.2)))
    | '-' :: r =>
      let ds := r.takeWhile Char.isDigit
      if ds.isEmpty then none
      else some (.jint (-(charDigitsVal ds : Int)), r.dropWhile Char.isDigit)
    | r =>
      let ds := r.takeWhile Char.isDigit
      if ds.isEmpty then none
      else some (.jint (charDigitsVal ds), r.dropWhile Char.isDigit)
/-- Comma-separated values up to the closing bracket. -/
def parseJList : Nat → List Char → Option (List JVal × List Char)
  | 0, _ => none
  | fuel + 1, cs =>
    match parseJ fuel cs with
    | none => none
    | some (v, rest) =>
      match skipSpaces rest with
      | ']' :: r' => some ([v], r')
      | ',' :: r' => (parseJList fuel r').map (fun p => (v :: p.1, p.2))
      | _ => none
/-- Comma-separated `"key": value` pairs up to the closing brace. -/
def parseJFields : Nat → List Char → Option (List (String × JVal) × List Char)
  | 0, _ => none
  | fuel + 1, cs =>
    match skipSpaces cs with
    | '"' :: r =>
      match parseStrChars r with
      | none => none
      | some (k, rest) =>
        match skipSpaces rest with
        | ':' :: r2 =>
          match parseJ fuel r2 with
          | none => none
          | some (v, rest2) =>
            match skipSpaces rest2 with
            | '\x7d' :: r3 => some ([(String.mk k, v)], r3)
            | ',' :: r3 => (parseJFields fuel r3).map (fun p => ((String.mk k, v) :: p.1, p.2))
            | _ => none
        | _ => none
    | _ => none
end

/-- `json.loads`, on the grammar produced by `jsonDumps` (trailing
non-blank input is an error, as in Python). -/
def jsonLoads (s : String) : Option JVal :=
  match parseJ (s.length + 1) s.data with
  | none => none
  | some (v, rest) => if (skipSpaces rest).isEmpty then some v else none

/-! ### base64 (`base64.b64encode` / `b64decode`) -/

def B64ALPH : List Char :=
  "ABCDEFGHIJKLMNOPQRSTUVWXYZabcdefghijklmnopqrstuvwxyz0123456789+/".data

def b64char (n : Nat) : Char := B64ALPH.getD n 'A'

def b64valAux : List Char → Nat → Char → Option Nat
  | [], _, _ => none
  | a :: as, i, c => if a = c then some i else b64valAux as (i + 1) c

def b64val (c : Char) : Option Nat := b64valAux B64ALPH 0 c

/-- `base64.b64encode`, as the ASCII characters of the result. -/
def b64encode : List Nat → List Char
  | [] => []
  | [b0] => [b64char (b0 / 4), b64char (b0 % 4 * 16), '=', '=']
  | [b0, b1] => [b64char (b0 / 4), b64char (b0 % 4 * 16 + b1 / 16), b64char (b1 % 16 * 4), '=']
  | b0 :: b1 :: b2 :: rest =>
    b64char (b0 / 4) :: b64char (b0 % 4 * 16 + b1 / 16) ::
      b64char (b1 % 16 * 4 + b2 / 64) :: b64char (b2 % 64) :: b64encode rest

/-- `base64.b64decode` on canonical base64 text; any failure stands for
`binascii.Error`, a `ValueError` (Python's discarding of stray
non-alphabet characters before the length check is not modelled — the
library only ever decodes its own canonical output). -/
def b64decodeChars : List Char → Option (List Nat)
  | [] => some []
  | [c1, c2, '=', '='] =>
    match b64val c1, b64val c2 with
    | some v1, some v2 => some [v1 * 4 + v2 / 16]
    | _, _ => none
  | [c1, c2, c3, '='] =>
    match b64val c1, b64val c2, b64val c3 with
    | some v1, some v2, some v3 => some [v1 * 4 + v2 / 16, v2 % 16 * 16 + v3 / 4]
    | _, _, _ => none
  | c1 :: c2 :: c3 :: c4 :: rest =>
    match b64val c1, b64val c2, b64val c3, b64val c4 with
    | some v1, some v2, some v3, some v4 =>
      (b64decodeChars rest).map
        (fun bs => (v1 * 4 + v2 / 16) :: (v2 % 16 * 16 + v3 / 4) :: (v3 % 4 * 64 + v4) :: bs)
    | _, _, _, _ => none
  | _ => none

def b64decodeStr (s : String) : Option (List Nat) := b64decodeChars s.data

/-! ### Versions (`version.py` and the third-party `semver` library) -/

/-- `__version_info__ = (2, 0, 0, 'alpha', 2)`. -/
def version_info : Nat × Nat × Nat × String × Nat := (2, 0, 0, "alpha", 2)

/-- `_get_semver_version`: `major.minor.patch` plus a `-stage.N`
pre-release suffix for every non-final stage. -/
def get_semver_version (vi : Nat × Nat × Nat × String × Nat) : String :=
  let (major, minor, patch, stage, num) := vi
  toString major ++ "." ++ toString minor ++ "." ++ toString patch ++
    (if stage = "final" then "" else "-" ++ stage ++ "." ++ toString num)

/-- `__version_semver__`. -/
def version_semver : String := get_semver_version version_info

/-- The major/minor/patch triple of a parsed version (`semver.Version`;
pre-release is parsed for validity but ignored by `is_compatible`). -/
structure SemVer where
  major : Nat
  minor : Nat
  patch : Nat
deriving DecidableEq, Repr

def parseNumPart (cs : List Char) : Option Nat :=
  if cs.isEmpty then none
  else if ¬ cs.all Char.isDigit then none
  else if cs.length > 1 ∧ cs.headD '0' = '0' then none
  else some (charDigitsVal cs)

def splitOnChar (sep : Char) : List Char → List (List Char)
  | [] => [[]]
  | c :: cs =>
    let rest := splitOnChar sep cs
    if c = sep then [] :: rest
    else match rest with
      | [] => [[c]]
      | p :: ps => (c :: p) :: ps

def preIdentOk (cs : List Char) : Bool :=
  ¬ cs.isEmpty && cs.all (fun c => c.isAlphanum || c = '-')

/-- Modelled from the `semver` library: `Version.parse` on a string —
`major.minor.patch`, optional `-prerelease` (dot-separated alphanumeric or
hyphen identifiers) and optional `+build`; a malformed string is a
`ValueError` (`none`). -/
def semverParse (s : String) : Option SemVer :=
  let cs := s.data
  let corePre := cs.takeWhile (· ≠ '+')
  let build := cs.dropWhile (· ≠ '+')
  let buildOk : Bool :=
    match build with
    | [] => true
    | _ :: b => (splitOnChar '.' b).all preIdentOk
  let core := corePre.takeWhile (· ≠ '-')
  let pre := corePre.dropWhile (· ≠ '-')
  let preOk : Bool :=
    match pre with
    | [] => true
    | _ :: p => (splitOnChar '.' p).all preIdentOk
  if ¬ (buildOk && preOk) then none
  else match (splitOnChar '.' core).map parseNumPart with
    | [some major, some minor, some patch] => some ⟨major, minor, patch⟩
    | _ => none

/-- Modelled from the `semver` library: `self.is_compatible(other)` —
a major-0 version is compatible only with its own major/minor; otherwise
same major and `self.minor ≤ other.minor` (pre-release ignored). -/
def is_compatible (self other : SemVer) : Bool :=
  if self.major = 0 ∧ other.major = 0 ∧ (self.major, self.minor) ≠ (other.major, other.minor)
  then false
  else self.major = other.major ∧ self.minor ≤ other.minor

/-! ### Message codec (`packers.py`) -/

mutual
/-- The Python value a decoded JSON tree denotes. -/
def pyOfJson : JVal → PyVal
  | .jnull => .vnone
  | .jbool b => .vbool b
  | .jint n => .vint n
  | .jstr s => .vstr s
  | .jarr es => .vlist (pyOfJsonList es)
  | .jobj kvs => .vdict (pyOfJsonFields kvs)
def pyOfJsonList : List JVal → List PyVal
  | [] => []
  | v :: vs => pyOfJson v :: pyOfJsonList vs
def pyOfJsonFields : List (String × JVal) → List (String × PyVal)
  | [] => []
  | (k, v) :: kvs => (k, pyOfJson v) :: pyOfJsonFields kvs
end

mutual
/-- The JSON tree `json.dumps` serialises a Python value as; `bytes`
anywhere raises `TypeError` (`none`). -/
def pyToJson : PyVal → Option JVal
  | .vnone => some .jnull
  | .vbool b => some (.jbool b)
  | .vint n => some (.jint n)
  | .vstr s => some (.jstr s)
  | .vbytes _ => none
  | .vlist xs => (pyToJsonList xs).map .jarr
  | .vdict kv => (pyToJsonFields kv).map .jobj
def pyToJsonList : List PyVal → Option (List JVal)
  | [] => some []
  | v :: vs =>
    match pyToJson v, pyToJsonList vs with
    | some j, some js => some (j :: js)
    | _, _ => none
def pyToJsonFields : List (String × PyVal) → Option (List (String × JVal))
  | [] => some []
  | (k, v) :: kvs =>
    match pyToJson v, pyToJsonFields kvs with
    | some j, some js => some ((k, j) :: js)
    | _, _ => none
end

/-- Python `dict.get(k)`: the stored value, or `None` for a missing key
(envelopes produced by the library never repeat a key, so first match
suffices). -/
def dictGet (k : String) (fields : List (String × JVal)) : Option JVal :=
  (fields.find? (fun kv => kv.1 == k)).map (·.2)

/-- Python `int(s)` on a string: optional blanks, an optional sign, then
decimal digits; anything else is a `ValueError` (`none`). -/
def pyIntParse (s : String) : Option Int :=
  let cs := skipSpaces s.data
  let core :=
    match cs with
    | '-' :: r => some (true, r)
    | '+' :: r => some (false, r)
    | r => some (false, r)
  match core with
  | some (neg, r) =>
    let ds := r.takeWhile Char.isDigit
    let rest := skipSpaces (r.dropWhile Char.isDigit)
    if ds.isEmpty ∨ ¬ rest.isEmpty then none
    else some (if neg then -(charDigitsVal ds : Int) else (charDigitsVal ds : Int))
  | none => none

/-- `packers.determine_type` (note: a Python `bool` is an `int`, and a
list falls to the string default). -/
def determine_type : PyVal → String
  | .vbytes _ => "bytes"
  | .vbool _ => "int"
  | .vint _ => "int"
  | .vdict _ => "json"
  | _ => "str"

/-- Return value of `pack_message`: the serialised envelope, or the
literal `False` the function returns for a non-dict value tagged json. -/
inductive PackRes where
  | packed (s : String)
  | pfalse

/-- Envelope serialisation shared by the `pack_message` branches. -/
def envDump (msgJ : JVal) (td : String) : String :=
  jsonDumps (.jobj [("msg", msgJ), ("type", .jstr td), ("version", .jstr version_semver)])

/-- `packers.pack_message`: infer the type tag when none (or a falsy one)
is given, encode the payload into the envelope and serialise it;
`base64.b64encode` or `json.dumps` on an unsupported value raises
`TypeError`. -/
def pack_message (message : PyVal) (type_data : Option String) : Except PyErr PackRes :=
  let td :=
    match type_data with
    | none => determine_type message
    | some s => if s = "" then determine_type message else s
  if td = "bytes" then
    match message with
    | .vbytes bs => .ok (.packed (envDump (.jstr (String.mk (b64encode bs))) td))
    | _ => .error .typeError
  else if td = "json" then
    match message with
    | .vdict kv =>
      match pyToJson (.vdict kv) with
      | some j => .ok (.packed (envDump (.jstr (jsonDumps j)) td))
      | none => .error .typeError
    | _ => .ok .pfalse
  else
    match pyToJson message with
    | some j => .ok (.packed (envDump j td))
    | none => .error .typeError

/-- The `msg`-conversion block of `unpack_message` (`type_data == 'str'`
comparison chain; a non-string tag equals none of them): `int()`,
`base64.b64decode` and `json.loads` raise `TypeError` on operands of the
wrong Python type; their `ValueError`/`JSONDecodeError` failures are
caught by the surrounding `except` and give the empty-string sentinel, as
does an unknown tag. -/
def convertPayload (message typeJ : JVal) : Except PyErr PyVal :=
  match typeJ with
  | .jstr td =>
    if td = "str" then .ok (pyOfJson message)
    else if td = "int" then
      (match message with
       | .jint n => .ok (.vint n)
       | .jbool b => .ok (.vint (if b then 1 else 0))
       | .jstr s =>
         (match pyIntParse s with
          | some n => .ok (.vint n)
          | none => .ok (.vstr ""))
       | _ => .error .typeError)
    else if td = "bytes" then
      (match message with
       | .jstr s =>
         (match b64decodeStr s with
          | some bs => .ok (.vbytes bs)
          | none => .ok (.vstr ""))
       | _ => .error .typeError)
    else if td = "json" then
      (match message with
       | .jstr s =>
         (match jsonLoads s with
          | some j => .ok (pyOfJson j)
          | none => .ok (.vstr ""))
       | _ => .error .typeError)
    else .ok (.vstr "")
  | _ => .ok (.vstr "")

/-- `packers.unpack_message`.  The argument is the outcome of decoding the
received bytes and `json.loads`-ing them (`none` for a parse failure,
which the function catches).  `Version.parse` on a missing or non-string
version raises `TypeError` — only `ValueError` is caught; `.get` on a
non-dict JSON value raises `AttributeError`.  `suppress_errors` only
selects the logging style. -/
def unpack_message (parsed : Option JVal) (suppress_errors : Bool) : Except PyErr PyVal :=
  match parsed with
  | none => .ok (.vstr "")
  | some (.jobj fields) =>
    (match dictGet "version" fields with
     | some (.jstr vs) =>
       (match semverParse vs with
        | none => .ok (.vstr "")
        | some vRemote =>
          match semverParse version_semver with
          | none => .ok (.vstr "")
          | some vLocal =>
            if is_compatible vRemote vLocal then
              convertPayload ((dictGet "msg" fields).getD .jnull)
                ((dictGet "type" fields).getD .jnull)
            else .ok (.vstr ""))
     | _ => .error .typeError)
  | some _ => .error .attributeError

/-- `unpack ∘ loads ∘ pack` for a value with inferred type tag:
the composition the wire round trip performs on one envelope. -/
def packUnpack (v : PyVal) : Option (Except PyErr PyVal) :=
  match pack_message v none with
  | .ok (.packed s) => some (unpack_message (jsonLoads s) false)
  | _ => none

/-- `unpack ∘ loads ∘ pack` with an explicitly given type tag. -/
def packUnpackTagged (v : PyVal) (td : String) : Option (Except PyErr PyVal) :=
  match pack_message v (some td) with
  | .ok (.packed s) => some (unpack_message (jsonLoads s) false)
  | _ => none

/-- C9: packing then unpacking returns the original value for each listed
payload, with the type tag inferred, and likewise when the relevant tag is
given explicitly. -/
theorem envelope_type_fidelity :
    packUnpack (.vstr "") = some (.ok (.vstr "")) ∧
    packUnpack (.vstr "a string") = some (.ok (.vstr "a string")) ∧
    packUnpack (.vint 0) = some (.ok (.vint 0)) ∧
    packUnpack (.vint 1) = some (.ok (.vint 1)) ∧
    packUnpack (.vint (-1)) = some (.ok (.vint (-1))) ∧
    packUnpack (.vint 9223372036854775807) = some (.ok (.vint 9223372036854775807)) ∧
    packUnpack (.vbytes []) = some (.ok (.vbytes [])) ∧
    packUnpack (.vbytes [0, 255]) = some (.ok (.vbytes [0, 255])) ∧
    packUnpack (.vdict [("k", .vint 1), ("l", .vlist [.vint 1, .vint 2])]) =
      some (.ok (.vdict [("k", .vint 1), ("l", .vlist [.vint 1, .vint 2])])) ∧
    packUnpackTagged (.vstr "a string") "str" = some (.ok (.vstr "a string")) ∧
    packUnpackTagged (.vint (-1)) "int" = some (.ok (.vint (-1))) ∧
    packUnpackTagged (.vbytes [0, 255]) "bytes" = some (.ok (.vbytes [0, 255])) ∧
    packUnpackTagged (.vdict [("k", .vint 1), ("l", .vlist [.vint 1, .vint 2])]) "json" =
      some (.ok (.vdict [("k", .vint 1), ("l", .vlist [.vint 1, .vint 2])])) :=
  ⟨rfl, rfl, rfl, rfl, rfl, rfl, rfl, rfl, rfl, rfl, rfl, rfl, rfl⟩

/-- Python `sub in hay` / `hay.find(sub) != -1` on character lists. -/
def subFind (sub : List Char) : List Char → Bool
  | [] => sub.isEmpty
  | c :: r => sub.isPrefixOf (c :: r) || subFind sub r

/-- `hay.find(sub) != -1`. -/
def strContains (hay sub : String) : Bool := subFind sub.data hay.data

/-- The ping test of both receive loops:
`unpacked.find(_OLD_PING_CODE) != -1 or unpacked.find(PING_CODE) != -1`. -/
def isPingStr (s : String) : Bool :=
  strContains s OLD_PING_CODE || strContains s PING_CODE

/-- What one `receive_bytes` call yields: a non-empty byte string (with
the outcome of `json.loads` on it), the `False` of a missing header, or
the empty byte string of a framing violation. -/
inductive RxItem where
  | msg (j : Option JVal)
  | closed
  | empty

/-- Outcome of `SimpleClient.receive`. -/
inductive ClientRecv where
  | returns (v : PyVal)
  | closedNone
  | blocks
  | raised (e : PyErr)

/-- Outcome of `SimpleServer.receive`. -/
inductive ServerRecv where
  | returns (v : PyVal)
  | removedNone
  | blocks
  | raised (e : PyErr)

/-- `SimpleClient.receive` with `timeout=0` (block until data), driven by
the queue of `receive_bytes` results: non-empty bytes are unpacked
(`suppress_errors` true by default; an exception propagates), a string
payload containing a ping token is skipped, `False` closes and returns
`None`, empty bytes just poll again; an exhausted queue means the real
loop is still blocked in `recv`. -/
def SimpleClient_receive : List RxItem → ClientRecv
  | [] => .blocks
  | .msg j :: rest =>
    (match unpack_message j true with
     | .error e => .raised e
     | .ok (.vstr s) =>
       if isPingStr s then SimpleClient_receive rest else .returns (.vstr s)
     | .ok v => .returns v)
  | .closed :: _ => .closedNone
  | .empty :: rest => SimpleClient_receive rest

/-- `SimpleServer.receive` with `timeout=0`: like the client loop but
with `suppress_errors` false, and a string payload containing
`"KSCKT DISCONNECT"` removes the client and returns `None`. -/
def SimpleServer_receive : List RxItem → ServerRecv
  | [] => .blocks
  | .msg j :: rest =>
    (match unpack_message j false with
     | .error e => .raised e
     | .ok (.vstr s) =>
       if isPingStr s then SimpleServer_receive rest
       else if strContains s DISCONNECT then .removedNone
       else .returns (.vstr s)
     | .ok v => .returns v)
  | .closed :: _ => .removedNone
  | .empty :: rest => SimpleServer_receive rest

/-- The envelope `pack_message(s)` produces for an ordinary string, as the
peer's `json.loads` reconstructs it. -/
def strEnvelope (s : String) : JVal :=
  .jobj [("msg", .jstr s), ("type", .jstr "str"), ("version", .jstr version_semver)]

/-- An incoming item whose payload unpacks to a string the ping test
skips. -/
def unpacksToPing (j : Option JVal) : Bool :=
  match unpack_message j true with
  | .ok (.vstr s) => isPingStr s
  | _ => false

/-- A payload value the client loop would return as data (not skipped as
a ping). -/
def clientSkips (v : PyVal) : Bool :=
  match v with
  | .vstr s => isPingStr s
  | _ => false

/-- A payload value the server loop intercepts (ping or disconnect). -/
def serverIntercepts (v : PyVal) : Bool :=
  match v with
  | .vstr s => isPingStr s || strContains s DISCONNECT
  | _ => false

/-- `suppress_errors` only selects logging; the result is the same. -/
theorem unpack_message_flag (j : Option JVal) (b b' : Bool) :
    unpack_message j b = unpack_message j b' := rfl

theorem SimpleClient_receive_skip (j : Option JVal) (rest : List RxItem)
    (h : unpacksToPing j = true) :
    SimpleClient_receive (RxItem.msg j :: rest) = SimpleClient_receive rest := by
  unfold unpacksToPing at h
  cases hu : unpack_message j true with
  | error e => rw [hu] at h; exact Bool.noConfusion (h : false = true)
  | ok v =>
    rw [hu] at h
    cases v with
    | vstr s =>
      have h' : isPingStr s = true := h
      simp [SimpleClient_receive, hu, h']
    | vnone => exact Bool.noConfusion (h : false = true)
    | vbool b => exact Bool.noConfusion (h : false = true)
    | vint n => exact Bool.noConfusion (h : false = true)
    | vbytes bs => exact Bool.noConfusion (h : false = true)
    | vlist xs => exact Bool.noConfusion (h : false = true)
    | vdict kv => exact Bool.noConfusion (h : false = true)

theorem SimpleServer_receive_skip (j : Option JVal) (rest : List RxItem)
    (h : unpacksToPing j = true) :
    SimpleServer_receive (RxItem.msg j :: rest) = SimpleServer_receive rest := by
  unfold unpacksToPing at h
  cases hu : unpack_message j false with
  | error e =>
    rw [unpack_message_flag j true false, hu] at h
    exact Bool.noConfusion (h : false = true)
  | ok v =>
    rw [unpack_message_flag j true false, hu] at h
    cases v with
    | vstr s =>
      have h' : isPingStr s = true := h
      simp [SimpleServer_receive, hu, h']
    | vnone => exact Bool.noConfusion (h : false = true)
    | vbool b => exact Bool.noConfusion (h : false = true)
    | vint n => exact Bool.noConfusion (h : false = true)
    | vbytes bs => exact Bool.noConfusion (h : false = true)
    | vlist xs => exact Bool.noConfusion (h : false = true)
    | vdict kv => exact Bool.noConfusion (h : false = true)

theorem SimpleClient_receive_data (d : Option JVal) (rest : List RxItem) (v : PyVal)
    (h1 : unpack_message d true = .ok v) (h2 : clientSkips v = false) :
    SimpleClient_receive (RxItem.msg d :: rest) = .returns v := by
  cases v with
  | vstr s =>
    have h2' : isPingStr s = false := h2
    simp [SimpleClient_receive, h1, h2']
  | vnone => simp [SimpleClient_receive, h1]
  | vbool b => simp [SimpleClient_receive, h1]
  | vint n => simp [SimpleClient_receive, h1]
  | vbytes bs => simp [SimpleClient_receive, h1]
  | vlist xs => simp [SimpleClient_receive, h1]
  | vdict kv => simp [SimpleClient_receive, h1]

theorem SimpleServer_receive_data (d : Option JVal) (rest : List RxItem) (v : PyVal)
    (h1 : unpack_message d false = .ok v) (h2 : serverIntercepts v = false) :
    SimpleServer_receive (RxItem.msg d :: rest) = .returns v := by
  cases v with
  | vstr s =>
    have h2' : (isPingStr s || strContains s DISCONNECT) = false := h2
    simp only [Bool.or_eq_false_iff] at h2'
    simp [SimpleServer_receive, h1, h2'.1, h2'.2]
  | vnone => simp [SimpleServer_receive, h1]
  | vbool b => simp [SimpleServer_receive, h1]
  | vint n => simp [SimpleServer_receive, h1]
  | vbytes bs => simp [SimpleServer_receive, h1]
  | vlist xs => simp [SimpleServer_receive, h1]
  | vdict kv => simp [SimpleServer_receive, h1]

/-- C2 as amended: any number of inbound envelopes whose string payloads
contain a ping token are silently skipped (on both the client and the
server loop), and a following data envelope is returned exactly; the
skip applies whenever the payload *contains* the token as a substring —
not only when it equals it. -/
theorem ping_transparency :
    (∀ (pings : List (Option JVal)) (d : Option JVal) (rest : List RxItem) (v : PyVal),
      (∀ j ∈ pings, unpacksToPing j = true) →
      unpack_message d true = .ok v →
      clientSkips v = false →
      SimpleClient_receive (pings.map RxItem.msg ++ RxItem.msg d :: rest) = .returns v) ∧
    (∀ (pings : List (Option JVal)) (d : Option JVal) (rest : List RxItem) (v : PyVal),
      (∀ j ∈ pings, unpacksToPing j = true) →
      unpack_message d false = .ok v →
      serverIntercepts v = false →
      SimpleServer_receive (pings.map RxItem.msg ++ RxItem.msg d :: rest) = .returns v) ∧
    (∀ (j : Option JVal) (rest : List RxItem), unpacksToPing j = true →
      SimpleClient_receive (RxItem.msg j :: rest) = SimpleClient_receive rest) ∧
    (∀ (j : Option JVal) (rest : List RxItem), unpacksToPing j = true →
      SimpleServer_receive (RxItem.msg j :: rest) = SimpleServer_receive rest) := by
  refine ⟨?_, ?_, SimpleClient_receive_skip, SimpleServer_receive_skip⟩
  · intro pings
    induction pings with
    | nil =>
      intro d rest v _ h1 h2
      simpa using SimpleClient_receive_data d rest v h1 h2
    | cons j js ih =>
      intro d rest v hp h1 h2
      simp only [List.map_cons, List.cons_append]
      rw [SimpleClient_receive_skip j _ (hp j (List.mem_cons_self j js))]
      exact ih d rest v (fun x hx => hp x (List.mem_cons_of_mem j hx)) h1 h2
  · intro pings
    induction pings with
    | nil =>
      intro d rest v _ h1 h2
      simpa using SimpleServer_receive_data d rest v h1 h2
    | cons j js ih =>
      intro d rest v hp h1 h2
      simp only [List.map_cons, List.cons_append]
      rw [SimpleServer_receive_skip j _ (hp j (List.mem_cons_self j js))]
      exact ih d rest v (fun x hx => hp x (List.mem_cons_of_mem j hx)) h1 h2

/-- Witness for the amended C2 statement: one real ping then the string
data envelope "hello", on both loops. -/
theorem ping_transparency_witness :
    SimpleClient_receive [RxItem.msg (some (strEnvelope PING_CODE)),
      RxItem.msg (some (strEnvelope "hello"))] = .returns (.vstr "hello") ∧
    SimpleServer_receive [RxItem.msg (some (strEnvelope PING_CODE)),
      RxItem.msg (some (strEnvelope "hello"))] = .returns (.vstr "hello") :=
  ⟨ping_transparency.1 [some (strEnvelope PING_CODE)] (some (strEnvelope "hello")) []
      (.vstr "hello") (by intro j hj; simp at hj; subst hj; rfl) rfl rfl,
    ping_transparency.2.1 [some (strEnvelope PING_CODE)] (some (strEnvelope "hello")) []
      (.vstr "hello") (by intro j hj; simp at hj; subst hj; rfl) rfl rfl⟩

/-- C2 counterexample: a data envelope whose string payload merely
*contains* "KSCKT PING" (it equals neither the token nor its legacy
synonym) is swallowed by the client receive loop, which returns the next
envelope instead — the claim's "never when it merely contains" fails. -/
theorem ping_substring_payload_swallowed :
    SimpleClient_receive [RxItem.msg (some (strEnvelope "x KSCKT PING x")),
        RxItem.msg (some (strEnvelope "hello"))] = .returns (.vstr "hello") ∧
      ("x KSCKT PING x" ≠ PING_CODE ∧ "x KSCKT PING x" ≠ OLD_PING_CODE) :=
  ⟨rfl, by decide, by decide⟩

/-! ### Accept loop, reconnection and close (`simplesocket.py`) -/

/-- The server-side per-connection record (`ClientObject`): identity,
the stream handle, the active flag. -/
structure ClientObject where
  id : Int
  stream : Nat
  isactive : Bool

/-- Python `next()` applied to a *list*: lists are not iterators, so it
raises `TypeError` regardless of the contents (`find_client_by_id` builds
a list comprehension, not a generator). -/
def pyNextOnList {α : Type} (xs : List α) : Except PyErr α :=
  let _ := xs
  .error .typeError

/-- `SimpleServer.find_client_by_id`: `next([...])` raises `TypeError`,
which the `except TypeError` turns into `None` — for every registry and
every identity. -/
def find_client_by_id (clients : List ClientObject) (i : Int) : Option ClientObject :=
  match pyNextOnList (clients.filter (fun c => c.id == i)) with
  | .ok c => some c
  | .error _ => none

/-- What `SimpleServer.accept` does with the unpacked second envelope. -/
inductive SecondStep where
  | minted

/-- The `if clientresp.find(_OLD_ASKID) ... elif clientresp.get('cmd')`
dispatch of `SimpleServer.accept`: `.find` exists only on strings (and on
bytes, where a string argument is a `TypeError`), and `.get` only on
dicts, so a dict second envelope raises `AttributeError` at the first
condition and the `elif` arm is unreachable. -/
def acceptSecondDispatch (clientresp : PyVal) : Except PyErr SecondStep :=
  match clientresp with
  | .vstr s =>
    if strContains s OLD_ASKID || strContains s ASKID then .ok .minted
    else .error .attributeError
  | .vbytes _ => .error .typeError
  | _ => .error .attributeError

/-- Result of the reconnection arm: the registry afterwards, the replies
sent through the (possibly swapped) session, and the fact that `accept`
returns `None` from this arm. -/
structure ReconnOutcome where
  clients : List ClientObject
  sent : List String
  returnsNone : Bool

/-- The reconnection arm of `SimpleServer.accept` (lines 308–316),
translated as written even though the dispatch above can never reach it:
look the identity up, on success swap the stream, reply
`CMD.REPL_CHNK_OK` and mark active; on failure return `None` with no
reply and without closing the new stream. -/
def acceptReconnArm (clients : List ClientObject) (reqId : Int) (newStream : Nat) :
    ReconnOutcome :=
  match find_client_by_id clients reqId with
  | none => ⟨clients, [], true⟩
  | some c =>
    ⟨clients.map (fun x => if x.id == c.id then { x with stream := newStream, isactive := true } else x),
      [REPL_CHNK_OK], true⟩

/-- C1: the reconnection-reuse path is dead and, even read charitably,
does not do what the claim says.  A mapping second envelope raises
`AttributeError` at `clientresp.find`, `find_client_by_id` returns `None`
for every registry (also when a session with the requested identity is
registered), and the arm itself would reply `"STCHNK OK"` — never
`"RECONN OK"` — while the unknown-identity case sends no `"RECONN DE"`
and leaves the new stream open. -/
theorem reconnection_request_dead_path :
    acceptSecondDispatch (.vdict [("cmd", .vstr REQ_RECCON), ("id", .vint 42)]) =
      .error .attributeError ∧
    (∀ (clients : List ClientObject) (i : Int), find_client_by_id clients i = none) ∧
    acceptReconnArm [⟨42, 7, false⟩] 42 9 = ⟨[⟨42, 7, false⟩], [], true⟩ ∧
    REPL_CHNK_OK ≠ REPL_RECCON_OK :=
  ⟨rfl, fun _ _ => rfl, rfl, by decide⟩

/-- Payload sent by the liveliness worker:
`Constants.PING_CODE.format(__version__)`; the token contains no
placeholder, so `format` returns it unchanged. -/
def client_liveliness_payload : String := PING_CODE

/-- Payloads `SimpleClient.connect` sends, in order. -/
def SimpleClient_connect_requests : List String := [ACKNOWLEDGE, ASKID]

/-- C7 counterexample: the legacy disconnect synonym is not accepted by
the server receive loop — it comes back as ordinary data, while the
current spelling removes the session. -/
theorem legacy_disconnect_not_accepted :
    SimpleServer_receive [RxItem.msg (some (strEnvelope OLD_DISCONNECT))] =
        .returns (.vstr OLD_DISCONNECT) ∧
      SimpleServer_receive [RxItem.msg (some (strEnvelope DISCONNECT))] = .removedNone :=
  ⟨rfl, rfl⟩

/-- C7 as amended: ping and ask-id accept both the current and the legacy
spelling with the same effect; disconnect is accepted only in its current
spelling (the legacy synonym is handed to the application as data); the
emitted control payloads use only current spellings. -/
theorem control_token_synonyms :
    (∀ rest, SimpleClient_receive (RxItem.msg (some (strEnvelope PING_CODE)) :: rest) =
      SimpleClient_receive rest) ∧
    (∀ rest, SimpleClient_receive (RxItem.msg (some (strEnvelope OLD_PING_CODE)) :: rest) =
      SimpleClient_receive rest) ∧
    (∀ rest, SimpleServer_receive (RxItem.msg (some (strEnvelope PING_CODE)) :: rest) =
      SimpleServer_receive rest) ∧
    (∀ rest, SimpleServer_receive (RxItem.msg (some (strEnvelope OLD_PING_CODE)) :: rest) =
      SimpleServer_receive rest) ∧
    acceptSecondDispatch (.vstr ASKID) = .ok .minted ∧
    acceptSecondDispatch (.vstr OLD_ASKID) = .ok .minted ∧
    (∀ rest, SimpleServer_receive (RxItem.msg (some (strEnvelope DISCONNECT)) :: rest) =
      .removedNone) ∧
    SimpleServer_receive [RxItem.msg (some (strEnvelope OLD_DISCONNECT))] =
      .returns (.vstr OLD_DISCONNECT) ∧
    client_liveliness_payload = "KSCKT PING" ∧
    SimpleClient_connect_requests = ["HelloAck", "ASK ID"] :=
  ⟨fun _ => rfl, fun _ => rfl, fun _ => rfl, fun _ => rfl, rfl, rfl, fun _ => rfl, rfl,
    rfl, rfl⟩

/-- Observable actions of a client-side `close`. -/
inductive CloseAct where
  | sendEnvelope (s : String)
  | closeStream

/-- KSockets `SimpleClient.close`: the body is exactly
`self.client.close()` — the action trace holds no send at all. -/
def SimpleClient_close : List CloseAct := [.closeStream]

/-- C5 evaluated on the code: closing a KSockets client performs only the
stream close and never sends a `"KSCKT DISCONNECT"` envelope, although
the server-side receive loop does remove a session on receipt of that
payload. -/
theorem close_sends_no_disconnect :
    SimpleClient_close = [CloseAct.closeStream] ∧
    SimpleClient_close.all
      (fun a => match a with | .sendEnvelope _ => false | .closeStream => true) = true ∧
    SimpleServer_receive [RxItem.msg (some (strEnvelope "KSCKT DISCONNECT"))] = .removedNone :=
  ⟨rfl, rfl, rfl⟩

/-! ### Server construction (`SimpleServer.__init__` / `SocketServer.__init__`) -/

/-- The compression-relevant state a `SocketServer` carries. -/
structure SocketServerCfg where
  chunk_size : Nat
  zstd_compression : Option String
  zstd_compression_level : Nat
deriving DecidableEq, Repr

/-- `SocketServer.__init__(..., compression_enabled, compression_level)`:
`_zstd_compression` is `"zstd"` when enabled (level as given), otherwise
`None` with the level left at 0. -/
def SocketServer_init (chunkSize : Nat) (compressionEnabled : Bool) (compressionLevel : Nat) :
    SocketServerCfg :=
  { chunk_size := chunkSize
    zstd_compression := if compressionEnabled then some "zstd" else none
    zstd_compression_level := if compressionEnabled then compressionLevel else 0 }

/-- `SimpleServer.__init__` with no `socket_api`: builds a
compression-configured `SocketServer` from `compression_level` — and then
line 229 rebinds `self.server` to `SocketServer(address=address,
chunk_size=chunks)`, whose defaults are `compression_enabled=True`,
`compression_level=3`. -/
def SimpleServer_init (chunks compressionLevel : Nat) : SocketServerCfg :=
  let _firstBinding :=
    if compressionLevel ≠ 0 then SocketServer_init chunks true compressionLevel
    else SocketServer_init chunks false 3
  SocketServer_init chunks true 3

/-- C10: whatever `compression_level` is passed (0 included), the server
`SimpleServer.__init__` ends up with is the default-constructed one —
zstd enabled at level 3 — so the parameter has no effect. -/
theorem compression_level_has_no_effect (chunks lvl lvl' : Nat) :
    SimpleServer_init chunks lvl = SocketServer_init chunks true 3 ∧
    (SimpleServer_init chunks lvl).zstd_compression = some "zstd" ∧
    (SimpleServer_init chunks lvl).zstd_compression_level = 3 ∧
    SimpleServer_init chunks lvl = SimpleServer_init chunks lvl' :=
  ⟨rfl, rfl, rfl, rfl⟩

end KSockets
